import Mathlib

/-
Verification of the odds-comparison engine of Golf-Value-Finder
(src/BettingApp.py) against its specification.

Numbers are modelled as rationals (ℚ). Python string/numeric cell values
are modelled by the sum type PyVal; a Python exception that the code under
analysis does not catch is modelled by the PyError error component of an
Except result. String scanning is performed on character lists with
structural recursion so that concrete inputs evaluate inside proofs.
-/

namespace BettingApp

/-- Python exceptions relevant to the analysed code paths:
ZeroDivisionError (division by an integer or float zero),
IndexError (list index out of range) and ValueError (failed int parse
outside any try block). -/
inductive PyError where
  | zeroDivision
  | indexError
  | valueError
  deriving DecidableEq, Repr

/-- A raw Python cell value as it reaches the engine from a parsed table:
a string, a finite number, or a missing value (None or NaN, both of which
are filtered out by the dropna calls downstream). -/
inductive PyVal where
  | str (s : String)
  | num (q : ℚ)
  | none_
  deriving DecidableEq, Repr

/-- Numeric value of a list of decimal digit characters, most significant
first (value of the digit run, used by the int and float parsers). -/
def digitsVal (l : List Char) : ℕ :=
  l.foldl (fun a c => 10 * a + (c.toNat - 48)) 0

/-- Python considers these characters strippable whitespace around numeric
literals. -/
def isPySpace (c : Char) : Bool :=
  c = ' ' ∨ c = '\t' ∨ c = '\n' ∨ c = '\r'

/-- Strip leading and trailing whitespace from a character list. -/
def stripSpaces (l : List Char) : List Char :=
  ((l.dropWhile isPySpace).reverse.dropWhile isPySpace).reverse

/-- Consume an optional leading sign; returns whether the value is negated
and the remaining characters. -/
def parseSign : List Char → Bool × List Char
  | '-' :: rest => (true, rest)
  | '+' :: rest => (false, rest)
  | l => (false, l)

/-- Models Python int(s) on a string: optional surrounding whitespace,
optional sign, then a nonempty run of decimal digits; anything else raises
ValueError, modelled as none. (Digit-group underscores and non-ASCII
digits, which CPython also accepts, do not occur in the data this app
parses and are not modelled.) -/
def parsePyInt (s : String) : Option ℤ :=
  let l := stripSpaces s.toList
  let p := parseSign l
  if p.2 ≠ [] ∧ p.2.all Char.isDigit then
    some (if p.1 then -(digitsVal p.2 : ℤ) else (digitsVal p.2 : ℤ))
  else none

/-- Models Python float(s) on a string holding a finite decimal literal:
optional whitespace and sign, then digits with an optional fractional
part, at least one digit overall. (Exponent notation and the inf and nan
forms, which CPython also accepts, do not occur in odds data and are not
modelled; a parse failure raises ValueError, modelled as none.) -/
def parsePyFloat (s : String) : Option ℚ :=
  let l := stripSpaces s.toList
  let p := parseSign l
  let ip := p.2.takeWhile Char.isDigit
  let rest := p.2.dropWhile Char.isDigit
  let mag : Option ℚ :=
    match rest with
    | [] => if ip = [] then none else some (digitsVal ip : ℚ)
    | '.' :: fp =>
        if fp.all Char.isDigit ∧ (ip ≠ [] ∨ fp ≠ []) then
          some ((digitsVal ip : ℚ) + (digitsVal fp : ℚ) / 10 ^ fp.length)
        else none
    | _ => none
  mag.map (fun q => if p.1 then -q else q)

/-- Python str.split for a single-character separator: returns the runs
between occurrences of the separator; the empty string yields one empty
field, matching CPython. Structural so that it evaluates in proofs. -/
def splitOnChar (c : Char) : List Char → List (List Char)
  | [] => [[]]
  | x :: xs =>
      match splitOnChar c xs, decide (x = c) with
      | r, true => [] :: r
      | [], false => [[x]]
      | h :: t, false => (x :: h) :: t

/-- Value of num / den + 1.0 from the two parsed int fields of a
fractional odds string: a failed int parse raises ValueError, caught by
the enclosing except clause, while a zero denominator raises
ZeroDivisionError, which that clause does not list. -/
def fraction_value : Option ℤ → Option ℤ → Except PyError (Option ℚ)
  | some n, some d =>
      if d = 0 then .error .zeroDivision
      else .ok (some ((n : ℚ) / (d : ℚ) + 1))
  | _, _ => .ok none

/-- Embeds fractional_to_decimal (src/BettingApp.py lines 12 to 20).
A string containing a slash is split on the slash and unpacked into two
int fields: a wrong field count or a failed int parse raises ValueError,
which the except clause catches, returning None. A zero denominator makes
num / den raise ZeroDivisionError, which the except clause, listing only
ValueError and TypeError, does NOT catch: it propagates to the caller.
Any other value goes through float(); float(None) raises TypeError,
caught, returning None (a NaN input likewise yields no usable value: the
callers drop it at dropna). -/
def fractional_to_decimal (fractional_odds : PyVal) : Except PyError (Option ℚ) :=
  match fractional_odds with
  | .str s =>
      if (s.toList).contains '/' then
        match splitOnChar '/' s.toList with
        | [a, b] => fraction_value (parsePyInt (String.mk a)) (parsePyInt (String.mk b))
        | _ => .ok none
      else .ok (parsePyFloat s)
  | .num q => .ok (some q)
  | .none_ => .ok none

/-- Embeds pd.to_numeric(x, errors equal to coerce) on one cell: a number
passes through, a string is parsed as a numeric literal, anything
unparseable or missing coerces to NaN, modelled as none. -/
def to_numeric (v : PyVal) : Option ℚ :=
  match v with
  | .str s => parsePyFloat s
  | .num q => some q
  | .none_ => none

/-- Decidable equality for Except results, used to evaluate the embedded
functions on concrete inputs inside proofs. -/
instance {ε α : Type} [DecidableEq ε] [DecidableEq α] : DecidableEq (Except ε α) := fun x y =>
  match x, y with
  | .ok a, .ok b => if h : a = b then .isTrue (by simp [h]) else .isFalse (by simp [h])
  | .error a, .error b => if h : a = b then .isTrue (by simp [h]) else .isFalse (by simp [h])
  | .ok _, .error _ => .isFalse (by simp)
  | .error _, .ok _ => .isFalse (by simp)

/-- One row of base_comparison_df (src/BettingApp.py lines 262 to 265),
the inner join of the tagged bookmaker rows with the DataGolf prediction
rows, restricted to the columns the downstream market functions read:
player is the raw bookmaker Player column (the later merge joins on it),
matchedPlayer the resolved player_name, win the DataGolf win column, and
tops the top_N columns present in the DataGolf table, as an association
list from N to the cell value. -/
structure JoinedRow where
  player : String
  bookmaker : String
  fractionalOdds : PyVal
  places : ℕ
  placeTerm : String
  matchedPlayer : String
  win : PyVal
  tops : List (ℕ × PyVal)
  deriving DecidableEq, Repr

/-- Models row.get (the string top underscore N) on a DataGolf row: the
value of the top_N column when that column exists, otherwise none (the
Series get default). -/
def lookupTop (tops : List (ℕ × PyVal)) (n : ℕ) : Option PyVal :=
  (tops.find? (fun p => decide (p.1 = n))).map (fun p => p.2)

/-- One output row of process_win_market after the dropna: the Bookmaker
Odds, DataGolf Odds and Win percent Edge columns alongside the join keys. -/
structure WinRow where
  player : String
  bookmaker : String
  bookmakerOdds : ℚ
  dataGolfOdds : ℚ
  winEdge : ℚ
  deriving DecidableEq, Repr

/-- The contribution of one joined row to the win-market output
(src/BettingApp.py lines 47 to 54): the row survives the dropna exactly
when the fractional odds convert and the win column coerces to a number,
and then carries edge (bookmaker / model - 1) * 100. -/
def winRowOf (r : JoinedRow) : Option WinRow :=
  match fractional_to_decimal r.fractionalOdds, to_numeric r.win with
  | .ok (some b), some m => some ⟨r.player, r.bookmaker, b, m, (b / m - 1) * 100⟩
  | _, _ => none

/-- Embeds process_win_market (src/BettingApp.py lines 47 to 54). The
Series apply evaluates fractional_to_decimal row by row and propagates
the first uncaught exception; when none is raised the dropna keeps the
rows where both odds columns are present and the edge column is computed. -/
def process_win_market (l : List JoinedRow) : Except PyError (List WinRow) :=
  match l.findSome? (fun r =>
      match fractional_to_decimal r.fractionalOdds with
      | .error e => some e
      | .ok _ => none) with
  | some e => .error e
  | none => .ok (l.filterMap winRowOf)

/-- Embeds the divisor extraction of calculate_place_odds
(src/BettingApp.py line 65): int applied to element 1 of the split of the
Place Term on the slash; a missing element raises IndexError and a failed
int parse raises ValueError, neither being caught in this function. -/
def place_divisor (placeTerm : String) : Except PyError ℤ :=
  match (splitOnChar '/' placeTerm.toList).get? 1 with
  | none => .error .indexError
  | some t =>
      match parsePyInt (String.mk t) with
      | none => .error .valueError
      | some d => .ok d

/-- Embeds calculate_place_odds (src/BettingApp.py lines 61 to 66): when
the win odds fail to convert the function returns None before touching
the place term; otherwise the divisor is extracted and the place odds are
1 + (decimal - 1) / divisor, a zero divisor raising ZeroDivisionError. -/
def calculate_place_odds (r : JoinedRow) : Except PyError (Option ℚ) :=
  match fractional_to_decimal r.fractionalOdds with
  | .error e => .error e
  | .ok none => .ok none
  | .ok (some d) =>
      match place_divisor r.placeTerm with
      | .error e => .error e
      | .ok v =>
          if v = 0 then .error .zeroDivision
          else .ok (some (1 + (d - 1) / (v : ℚ)))

/-- One output row of process_positional_market after the dropna. -/
structure PosRow where
  player : String
  bookmaker : String
  bookmakerOdds : ℚ
  dataGolfOdds : ℚ
  posEdge : ℚ
  deriving DecidableEq, Repr

/-- The contribution of one joined row to the positional-market output
(src/BettingApp.py lines 56 to 72): the row survives the dropna exactly
when the place odds compute and the top_N column for the row places
coerces to a number. -/
def posRowOf (r : JoinedRow) : Option PosRow :=
  match calculate_place_odds r, to_numeric ((lookupTop r.tops r.places).getD .none_) with
  | .ok (some b), some m => some ⟨r.player, r.bookmaker, b, m, (b / m - 1) * 100⟩
  | _, _ => none

/-- Embeds process_positional_market (src/BettingApp.py lines 56 to 72).
The apply over calculate_place_odds propagates the first uncaught
exception; otherwise the DataGolf column is looked up per row at the row
own place count with coercion, the dropna keeps fully numeric rows, and
the edge column is computed. -/
def process_positional_market (l : List JoinedRow) : Except PyError (List PosRow) :=
  match l.findSome? (fun r =>
      match calculate_place_odds r with
      | .error e => some e
      | .ok _ => none) with
  | some e => .error e
  | none => .ok (l.filterMap posRowOf)

/-- One row of the merged Each Way table: the columns selected on
src/BettingApp.py line 82 (Player, Bookmaker, the win-market Bookmaker
Odds, and the Each Way Value). -/
structure EwRow where
  player : String
  bookmaker : String
  bookmakerOdds : ℚ
  eachWayValue : ℚ
  deriving DecidableEq, Repr

/-- The inner pd.merge of merge_and_calculate_ew (src/BettingApp.py lines
76 to 81) together with the Each Way Value column: every pair of a win
row and a positional row agreeing on Player and Bookmaker produces one
row, in left-table order, carrying the mean of the two edges. -/
def ew_joined (win : List WinRow) (pos : List PosRow) : List EwRow :=
  win.flatMap (fun w =>
    (pos.filter (fun p => decide (p.player = w.player) && decide (p.bookmaker = w.bookmaker))).map
      (fun p => ⟨w.player, w.bookmaker, w.bookmakerOdds, (w.winEdge + p.posEdge) / 2⟩))

/-- Ascending comparison on the Each Way Value column. -/
def ewLe (a b : EwRow) : Prop := a.eachWayValue ≤ b.eachWayValue

instance : DecidableRel ewLe := fun a b =>
  inferInstanceAs (Decidable (a.eachWayValue ≤ b.eachWayValue))

instance : IsTotal EwRow ewLe := ⟨fun a b => le_total a.eachWayValue b.eachWayValue⟩

instance : IsTrans EwRow ewLe := ⟨fun _ _ _ h₁ h₂ => le_trans h₁ h₂⟩

/-- Embeds merge_and_calculate_ew (src/BettingApp.py lines 74 to 83).
sort_values with ascending False goes through pandas nargsort, which
computes an ascending argsort of the column and reverses the resulting
indexer; this is modelled as a stable ascending sort followed by
List.reverse. (The default quicksort kind gives no guarantee at all on
the relative order of equal keys; the stable model is the reading most
favourable to a stability claim, and numpy introsort does sort small
arrays with a stable insertion sort.) -/
def merge_and_calculate_ew (win : List WinRow) (pos : List PosRow) : List EwRow :=
  ((ew_joined win pos).insertionSort ewLe).reverse

/-- Lookup in the manual mappings dict (the name in manual_mappings test
followed by manual_mappings of name, src/BettingApp.py lines 244 to 245),
with the dict modelled as an association list whose first binding for a
key is its current value. -/
def dict_lookup (m : List (String × String)) (k : String) : Option String :=
  (m.find? (fun p => decide (p.1 = k))).map (fun p => p.2)

/-- Models the dict update manual_mappings of unmatched_choice becomes
datagolf_choice followed by save_manual_mappings (src/BettingApp.py lines
33 to 36 and 257 to 258): the new binding overwrites any prior binding
for the same raw name and the whole table is persisted (the CSV write
itself is file io outside the engine). -/
def save_manual_mappings (m : List (String × String)) (raw canonical : String) :
    List (String × String) :=
  (raw, canonical) :: m.filter (fun p => !decide (p.1 = raw))

/-- Embeds get_match (src/BettingApp.py lines 243 to 246), parametrised
by the approximate matcher: find_best_match wraps the external thefuzz
process.extractOne with score cutoff 90, which is third-party code, so it
enters the model as an arbitrary function from a name and the candidate
list to an optional candidate. A raw name present in manual_mappings
returns its stored value before the matcher is ever consulted. -/
def get_match (fuzzy : String → List String → Option String)
    (manual_mappings : List (String × String)) (choices : List String)
    (name : String) : Option String :=
  match dict_lookup manual_mappings name with
  | some c => some c
  | none => fuzzy name choices

/-- One raw bookmaker row after the per-source tagging (src/BettingApp.py
lines 202 to 238): the uploaded Player and Fractional Odds columns plus
the configured Bookmaker name, Places and Place Term. -/
structure BookRow where
  player : String
  fractionalOdds : PyVal
  bookmaker : String
  places : ℕ
  placeTerm : String
  deriving DecidableEq, Repr

/-- One DataGolf prediction row: the player_name join column, the win
odds column and the top_N columns. -/
structure DgRow where
  player_name : String
  win : PyVal
  tops : List (ℕ × PyVal)
  deriving DecidableEq, Repr

/-- Embeds datagolf_df player_name unique tolist (src/BettingApp.py line
241): the candidate list handed to the matcher, with duplicates removed
keeping first occurrences. -/
def datagolf_player_list (dg : List DgRow) : List String :=
  (dg.map (fun d => d.player_name)).dedup

/-- Embeds the matched_player column followed by base_comparison_df
(src/BettingApp.py lines 248 and 262 to 265): rows whose match is null
are dropped, the rest inner-join with the DataGolf rows on matched_player
equal to player_name, each match pairing producing one joined row. -/
def base_comparison_df (fuzzy : String → List String → Option String)
    (mappings : List (String × String)) (book : List BookRow) (dg : List DgRow) :
    List JoinedRow :=
  book.flatMap (fun b =>
    match get_match fuzzy mappings (datagolf_player_list dg) b.player with
    | none => []
    | some m =>
        (dg.filter (fun d => decide (d.player_name = m))).map (fun d =>
          ⟨b.player, b.bookmaker, b.fractionalOdds, b.places, b.placeTerm,
            m, d.win, d.tops⟩))

/-- Embeds the unmatched_players list (src/BettingApp.py line 249): the
raw Player values of the bookmaker rows whose match is null. -/
def unmatched_players (fuzzy : String → List String → Option String)
    (mappings : List (String × String)) (book : List BookRow) (dg : List DgRow) :
    List String :=
  (book.filter (fun b =>
    (get_match fuzzy mappings (datagolf_player_list dg) b.player).isNone)).map
    (fun b => b.player)

/-! Shared lemmas about the embedded functions. -/

/-- Evaluation of the slash branch of the converter at a two-field split. -/
theorem fractional_to_decimal_fraction {s : String} {a b : List Char}
    (hc : (s.toList).contains '/' = true)
    (hsp : splitOnChar '/' s.toList = [a, b]) :
    fractional_to_decimal (.str s) =
      fraction_value (parsePyInt (String.mk a)) (parsePyInt (String.mk b)) := by
  simp only [fractional_to_decimal]
  rw [if_pos hc, hsp]

/-- Evaluation of the converter on a string without a slash. -/
theorem fractional_to_decimal_noslash {s : String}
    (hc : (s.toList).contains '/' = false) :
    fractional_to_decimal (.str s) = .ok (parsePyFloat s) := by
  simp only [fractional_to_decimal]
  rw [if_neg (by simpa using hc)]

/-- A failed numerator parse is caught and yields absent. -/
theorem fraction_value_none_left (x : Option ℤ) : fraction_value none x = .ok none := by
  cases x <;> rfl

/-- A failed denominator parse is caught and yields absent. -/
theorem fraction_value_none_right (x : Option ℤ) : fraction_value x none = .ok none := by
  cases x <;> rfl

/-- Both fields parsed: zero denominator raises, otherwise the decimal
value is n / d + 1. -/
theorem fraction_value_some (n d : ℤ) :
    fraction_value (some n) (some d) =
      if d = 0 then .error .zeroDivision else .ok (some ((n : ℚ) / (d : ℚ) + 1)) := rfl

/-- A successful win-market run returns exactly the per-row survivors. -/
theorem process_win_market_ok {l : List JoinedRow} {out : List WinRow}
    (h : process_win_market l = .ok out) : out = l.filterMap winRowOf := by
  unfold process_win_market at h
  split at h
  · exact absurd h (by simp)
  · injection h with h
    exact h.symm

/-- A successful positional-market run returns exactly the per-row
survivors. -/
theorem process_positional_market_ok {l : List JoinedRow} {out : List PosRow}
    (h : process_positional_market l = .ok out) : out = l.filterMap posRowOf := by
  unfold process_positional_market at h
  split at h
  · exact absurd h (by simp)
  · injection h with h
    exact h.symm

/-- Shape of a surviving win row: it is built from its source row. -/
theorem winRowOf_eq_some {r : JoinedRow} {w : WinRow} (h : winRowOf r = some w) :
    ∃ b m, fractional_to_decimal r.fractionalOdds = .ok (some b) ∧
      to_numeric r.win = some m ∧
      w = ⟨r.player, r.bookmaker, b, m, (b / m - 1) * 100⟩ := by
  unfold winRowOf at h
  split at h
  · next b m hb hm => exact ⟨b, m, hb, hm, (Option.some.injEq _ _ ▸ h).symm⟩
  · exact absurd h (by simp)

/-- Shape of a surviving positional row: it is built from its source row,
whose DataGolf odds are the coerced top_N column for the row places. -/
theorem posRowOf_eq_some {r : JoinedRow} {p : PosRow} (h : posRowOf r = some p) :
    ∃ b m, calculate_place_odds r = .ok (some b) ∧
      to_numeric ((lookupTop r.tops r.places).getD .none_) = some m ∧
      p = ⟨r.player, r.bookmaker, b, m, (b / m - 1) * 100⟩ := by
  unfold posRowOf at h
  split at h
  · next b m hb hm => exact ⟨b, m, hb, hm, (Option.some.injEq _ _ ▸ h).symm⟩
  · exact absurd h (by simp)

/-- Membership in the Each Way table is membership in the unsorted join. -/
theorem mem_merge_iff_mem_joined {win : List WinRow} {pos : List PosRow} {e : EwRow} :
    e ∈ merge_and_calculate_ew win pos ↔ e ∈ ew_joined win pos := by
  unfold merge_and_calculate_ew
  rw [List.mem_reverse]
  exact (List.perm_insertionSort ewLe _).mem_iff

/-- Membership in the unsorted join, characterised by the source rows. -/
theorem mem_ew_joined {win : List WinRow} {pos : List PosRow} {e : EwRow} :
    e ∈ ew_joined win pos ↔ ∃ w ∈ win, ∃ q ∈ pos,
      q.player = w.player ∧ q.bookmaker = w.bookmaker ∧
      e = ⟨w.player, w.bookmaker, w.bookmakerOdds, (w.winEdge + q.posEdge) / 2⟩ := by
  constructor
  · intro h
    rcases List.mem_flatMap.mp h with ⟨w, hw, hmem⟩
    rcases List.mem_map.mp hmem with ⟨q, hq, hqe⟩
    rcases List.mem_filter.mp hq with ⟨hqpos, hkey⟩
    rcases (by simpa using hkey : q.player = w.player ∧ q.bookmaker = w.bookmaker) with ⟨h₁, h₂⟩
    exact ⟨w, hw, q, hqpos, h₁, h₂, hqe.symm⟩
  · rintro ⟨w, hw, q, hq, h₁, h₂, rfl⟩
    refine List.mem_flatMap.mpr ⟨w, hw, List.mem_map.mpr ⟨q, ?_, rfl⟩⟩
    exact List.mem_filter.mpr ⟨hq, by simp [h₁, h₂]⟩

/-! Claim C3. -/

/-- C3 counterexample: the claim says no input ever lets an exception
propagate, but a fractional string with a zero denominator reaches
num / den and raises ZeroDivisionError, which the except clause, listing
only ValueError and TypeError, does not catch. -/
theorem C3_counterexample :
    fractional_to_decimal (.str "1/0") = .error .zeroDivision := by decide

/-- C3 (amended): for every input value the conversion either returns a
result (a decimal or absent) or raises ZeroDivisionError, and the latter
happens only for a string splitting on the slash into exactly two parsed
integers whose denominator is zero; every other failure mode is caught
and yields absent. -/
theorem C3_no_exception_except_zero_denominator :
    ∀ v : PyVal,
      (∃ r, fractional_to_decimal v = .ok r) ∨
      (∃ s a b n, v = PyVal.str s ∧ splitOnChar '/' s.toList = [a, b] ∧
        parsePyInt (String.mk a) = some n ∧ parsePyInt (String.mk b) = some 0 ∧
        fractional_to_decimal v = .error .zeroDivision) := by
  intro v
  match v with
  | .num q => exact .inl ⟨some q, rfl⟩
  | .none_ => exact .inl ⟨none, rfl⟩
  | .str s =>
      match hc : (s.toList).contains '/' with
      | true =>
          match hsp : splitOnChar '/' s.toList with
          | [] => exact .inl ⟨none, by simp only [fractional_to_decimal]; rw [if_pos hc, hsp]⟩
          | [a] => exact .inl ⟨none, by simp only [fractional_to_decimal]; rw [if_pos hc, hsp]⟩
          | a :: b :: c :: rest =>
              exact .inl ⟨none, by simp only [fractional_to_decimal]; rw [if_pos hc, hsp]⟩
          | [a, b] =>
              match hn : parsePyInt (String.mk a) with
              | none => exact .inl ⟨none, by
                  rw [fractional_to_decimal_fraction hc hsp, hn, fraction_value_none_left]⟩
              | some n =>
                  match hd : parsePyInt (String.mk b) with
                  | none => exact .inl ⟨none, by
                      rw [fractional_to_decimal_fraction hc hsp, hn, hd,
                        fraction_value_none_right]⟩
                  | some d =>
                      by_cases hdz : d = 0
                      · subst hdz
                        exact .inr ⟨s, a, b, n, rfl, hsp, hn, hd, by
                          rw [fractional_to_decimal_fraction hc hsp, hn, hd,
                            fraction_value_some, if_pos rfl]⟩
                      · exact .inl ⟨some ((n : ℚ) / (d : ℚ) + 1), by
                          rw [fractional_to_decimal_fraction hc hsp, hn, hd,
                            fraction_value_some, if_neg hdz]⟩
      | false => exact .inl ⟨parsePyFloat s, fractional_to_decimal_noslash hc⟩

/-! Claim C4. -/

/-- C4: a string containing a slash is parsed as an integer numerator and
denominator and yields numerator / denominator + 1 (whenever that parse
succeeds with a nonzero denominator), any other input goes through the
direct numeric parse, and the four cited examples evaluate as stated. -/
theorem C4_converter_routing :
    (∀ (s : String) (a b : List Char) (n d : ℤ),
      (s.toList).contains '/' = true →
      splitOnChar '/' s.toList = [a, b] →
      parsePyInt (String.mk a) = some n →
      parsePyInt (String.mk b) = some d →
      d ≠ 0 →
      fractional_to_decimal (.str s) = .ok (some ((n : ℚ) / (d : ℚ) + 1))) ∧
    (∀ s : String, (s.toList).contains '/' = false →
      fractional_to_decimal (.str s) = .ok (parsePyFloat s)) ∧
    fractional_to_decimal (.str "10/1") = .ok (some 11) ∧
    fractional_to_decimal (.str "1/1") = .ok (some 2) ∧
    fractional_to_decimal (.str "abc") = .ok none ∧
    fractional_to_decimal (.str "") = .ok none := by
  refine ⟨?_, ?_, ?_, ?_, by decide, by decide⟩
  · intro s a b n d hc hsp hn hd hdz
    rw [fractional_to_decimal_fraction hc hsp, hn, hd, fraction_value_some, if_neg hdz]
  · intro s hc
    exact fractional_to_decimal_noslash hc
  · have h : fractional_to_decimal (.str "10/1") = .ok (some ((10 : ℚ) / 1 + 1)) := rfl
    rw [h]; norm_num
  · have h : fractional_to_decimal (.str "1/1") = .ok (some ((1 : ℚ) / 1 + 1)) := rfl
    rw [h]; norm_num

/-- C4 witness: the general fractional branch instantiated at the string
10/1, whose hypotheses all evaluate by decide. -/
theorem C4_witness :
    fractional_to_decimal (.str "10/1") = .ok (some ((10 : ℚ) / 1 + 1)) :=
  C4_converter_routing.1 "10/1" "10".toList "1".toList 10 1
    (by decide) (by decide) (by decide) (by decide) (by decide)

/-! Claim C5. -/

/-- C5 counterexample: the claim says every non-absent conversion result
exceeds 1.0, but the plain numeric string 0.5 goes through the direct
float parse and is returned as 0.5, which is not greater than 1. -/
theorem C5_counterexample :
    fractional_to_decimal (.str "0.5") = .ok (some (1 / 2)) ∧ ¬(1 < (1 / 2 : ℚ)) := by
  constructor
  · have h : fractional_to_decimal (.str "0.5") = .ok (some ((0 : ℚ) + 5 / 10 ^ 1)) := rfl
    rw [h]; norm_num
  · norm_num

/-- C5 (amended): a fractional string with positive parsed numerator and
denominator does convert to a decimal strictly greater than 1; inputs
taking the direct numeric branch are passed through unchanged and carry
no lower bound. -/
theorem C5_fractional_result_gt_one :
    (∀ (s : String) (a b : List Char) (n d : ℤ),
      (s.toList).contains '/' = true →
      splitOnChar '/' s.toList = [a, b] →
      parsePyInt (String.mk a) = some n →
      parsePyInt (String.mk b) = some d →
      0 < n → 0 < d →
      fractional_to_decimal (.str s) = .ok (some ((n : ℚ) / (d : ℚ) + 1)) ∧
        1 < (n : ℚ) / (d : ℚ) + 1) ∧
    (∀ q : ℚ, fractional_to_decimal (.num q) = .ok (some q)) := by
  refine ⟨?_, fun q => rfl⟩
  intro s a b n d hc hsp hn hd hnp hdp
  have hdz : d ≠ 0 := by omega
  refine ⟨by rw [fractional_to_decimal_fraction hc hsp, hn, hd, fraction_value_some,
    if_neg hdz], ?_⟩
  have hpos : 0 < (n : ℚ) / (d : ℚ) :=
    div_pos (by exact_mod_cast hnp) (by exact_mod_cast hdp)
  linarith

/-- C5 witness: the positive-fraction branch instantiated at 10/1. -/
theorem C5_witness :
    fractional_to_decimal (.str "10/1") = .ok (some ((10 : ℚ) / 1 + 1)) ∧
      1 < (10 : ℚ) / 1 + 1 :=
  C5_fractional_result_gt_one.1 "10/1" "10".toList "1".toList 10 1
    (by decide) (by decide) (by decide) (by decide) (by decide) (by decide)

/-! Claim C6. -/

/-- C6: whenever the win odds convert to a decimal, the place odds are
1 + (win_decimal - 1) / divisor with the divisor the parsed integer after
the slash of the place term; the term 1/4 gives divisor 4, the term 1/5
gives divisor 5, and win decimal 11.0 with divisor 4 gives place decimal
3.5. -/
theorem C6_place_odds_formula :
    (∀ (r : JoinedRow) (d₀ : ℚ) (v : ℤ),
      fractional_to_decimal r.fractionalOdds = .ok (some d₀) →
      place_divisor r.placeTerm = .ok v → v ≠ 0 →
      calculate_place_odds r = .ok (some (1 + (d₀ - 1) / (v : ℚ)))) ∧
    place_divisor "1/4" = .ok 4 ∧
    place_divisor "1/5" = .ok 5 ∧
    calculate_place_odds ⟨"A", "BK", .str "10/1", 4, "1/4", "A", .none_, []⟩ =
      .ok (some (7 / 2)) := by
  refine ⟨?_, by decide, by decide, ?_⟩
  · intro r d₀ v hd hv hvz
    simp only [calculate_place_odds, hd, hv]
    rw [if_neg hvz]
  · have h : calculate_place_odds ⟨"A", "BK", .str "10/1", 4, "1/4", "A", .none_, []⟩ =
        .ok (some (1 + ((10 : ℚ) / 1 + 1 - 1) / ((4 : ℤ) : ℚ))) := rfl
    rw [h]
    norm_num

/-- C6 witness: the place-odds formula instantiated at a concrete row with
fractional win odds 10/1 and place term 1/4. -/
theorem C6_witness :
    calculate_place_odds ⟨"A", "BK", .str "10/1", 4, "1/4", "A", .none_, []⟩ =
      .ok (some (1 + ((10 : ℚ) / 1 + 1 - 1) / ((4 : ℤ) : ℚ))) :=
  C6_place_odds_formula.1 ⟨"A", "BK", .str "10/1", 4, "1/4", "A", .none_, []⟩
    ((10 : ℚ) / 1 + 1) 4 rfl (by decide) (by decide)

/-! Claim C7. -/

/-- C7: once a mapping from a raw name to a canonical name is saved, the
exact dict lookup in get_match returns that canonical name for every
candidate list and every behaviour of the approximate matcher, which is
never consulted (the result does not depend on the matcher at all). -/
theorem C7_saved_mapping_authoritative :
    ∀ (fuzzy : String → List String → Option String)
      (m : List (String × String)) (choices : List String) (raw canonical : String),
      get_match fuzzy (save_manual_mappings m raw canonical) choices raw = some canonical := by
  intro fuzzy m choices raw canonical
  simp [get_match, dict_lookup, save_manual_mappings]

/-- Sign of the edge column: positive exactly when the bookmaker odds
exceed the model odds, provided the model odds are positive. -/
theorem edge_pos_iff {b m : ℚ} (hm : 0 < m) :
    0 < (b / m - 1) * 100 ↔ m < b := by
  have h1 : ((0 : ℚ) < (b / m - 1) * 100) ↔ 0 < b / m - 1 := by
    constructor <;> intro h <;> nlinarith
  rw [h1, sub_pos, one_lt_div hm]

/-! Claim C1. -/

/-- C1 counterexample: a joined row whose bookmaker odds convert to 2.0
and whose model win odds coerce to the negative number -10 is kept by the
code, its bookmaker decimal exceeds the model decimal, yet its computed
edge (2 / -10 - 1) * 100 = -120 is not positive, refuting the claimed
equivalence between positive edge and bookmaker exceeding model. -/
theorem C1_counterexample :
    process_win_market [⟨"A", "BK", .str "1/1", 5, "1/5", "A", .str "-10", []⟩] =
      .ok [⟨"A", "BK", 2, -10, -120⟩] ∧
    (⟨"A", "BK", 2, -10, -120⟩ : WinRow).dataGolfOdds <
      (⟨"A", "BK", 2, -10, -120⟩ : WinRow).bookmakerOdds ∧
    ¬(0 < (⟨"A", "BK", 2, -10, -120⟩ : WinRow).winEdge) := by
  refine ⟨?_, by norm_num, by norm_num⟩
  have h : process_win_market [⟨"A", "BK", .str "1/1", 5, "1/5", "A", .str "-10", []⟩] =
      .ok [⟨"A", "BK", (1 : ℚ) / 1 + 1, -10, (((1 : ℚ) / 1 + 1) / (-10) - 1) * 100⟩] := rfl
  rw [h]
  norm_num

/-- C1 (amended): in both markets every surviving row carries edge
(bookmaker / model - 1) * 100; bookmaker decimal 12.0 against model
decimal 10.0 yields edge 20.0; and WHEN the model decimal is positive the
edge is positive exactly when the bookmaker decimal exceeds the model
decimal (the equivalence can fail for rows whose model column coerces to
a nonpositive number, which the code does not reject). -/
theorem C1_edge_formula :
    (∀ (l : List JoinedRow) (out : List WinRow), process_win_market l = .ok out →
      ∀ w ∈ out,
        w.winEdge = (w.bookmakerOdds / w.dataGolfOdds - 1) * 100 ∧
        (0 < w.dataGolfOdds → (0 < w.winEdge ↔ w.dataGolfOdds < w.bookmakerOdds))) ∧
    (∀ (l : List JoinedRow) (out : List PosRow), process_positional_market l = .ok out →
      ∀ p ∈ out,
        p.posEdge = (p.bookmakerOdds / p.dataGolfOdds - 1) * 100 ∧
        (0 < p.dataGolfOdds → (0 < p.posEdge ↔ p.dataGolfOdds < p.bookmakerOdds))) ∧
    process_win_market [⟨"A", "BK", .str "11/1", 5, "1/5", "A", .str "10", []⟩] =
      .ok [⟨"A", "BK", 12, 10, 20⟩] := by
  refine ⟨?_, ?_, ?_⟩
  · intro l out hout w hw
    rw [process_win_market_ok hout] at hw
    rcases List.mem_filterMap.mp hw with ⟨r, _, hr⟩
    rcases winRowOf_eq_some hr with ⟨b, m, _, _, rfl⟩
    exact ⟨rfl, fun hm => edge_pos_iff hm⟩
  · intro l out hout p hp
    rw [process_positional_market_ok hout] at hp
    rcases List.mem_filterMap.mp hp with ⟨r, _, hr⟩
    rcases posRowOf_eq_some hr with ⟨b, m, _, _, rfl⟩
    exact ⟨rfl, fun hm => edge_pos_iff hm⟩
  · have h : process_win_market [⟨"A", "BK", .str "11/1", 5, "1/5", "A", .str "10", []⟩] =
        .ok [⟨"A", "BK", (11 : ℚ) / 1 + 1, 10, (((11 : ℚ) / 1 + 1) / 10 - 1) * 100⟩] := rfl
    rw [h]
    norm_num

/-- C1 witness: the general statement instantiated at the single joined
row with bookmaker fractional odds 11/1 (decimal 12.0) and model win odds
10, whose surviving output row the theorem itself computes. -/
theorem C1_witness :
    ((⟨"A", "BK", 12, 10, 20⟩ : WinRow).winEdge =
      ((⟨"A", "BK", 12, 10, 20⟩ : WinRow).bookmakerOdds /
        (⟨"A", "BK", 12, 10, 20⟩ : WinRow).dataGolfOdds - 1) * 100) ∧
    (0 < (⟨"A", "BK", 12, 10, 20⟩ : WinRow).winEdge ↔
      (⟨"A", "BK", 12, 10, 20⟩ : WinRow).dataGolfOdds <
        (⟨"A", "BK", 12, 10, 20⟩ : WinRow).bookmakerOdds) := by
  have h := C1_edge_formula.1 [⟨"A", "BK", .str "11/1", 5, "1/5", "A", .str "10", []⟩]
    [⟨"A", "BK", 12, 10, 20⟩] C1_edge_formula.2.2 ⟨"A", "BK", 12, 10, 20⟩ (by simp)
  exact ⟨h.1, h.2 (by norm_num)⟩

/-! Claim C2. -/

/-- C2: a (player, bookmaker) pair appears in the merged Each Way output
exactly when it appears in both the win-edge input and the
positional-edge input, and every merged row takes its Each Way value as
exactly the mean of the two edges of matching input rows (and its odds
column from the win side). -/
theorem C2_merge_pairs_and_mean :
    (∀ (win : List WinRow) (pos : List PosRow) (P B : String),
      (∃ e ∈ merge_and_calculate_ew win pos, e.player = P ∧ e.bookmaker = B) ↔
      ((∃ w ∈ win, w.player = P ∧ w.bookmaker = B) ∧
       (∃ q ∈ pos, q.player = P ∧ q.bookmaker = B))) ∧
    (∀ (win : List WinRow) (pos : List PosRow) (e : EwRow),
      e ∈ merge_and_calculate_ew win pos →
      ∃ w ∈ win, ∃ q ∈ pos,
        w.player = e.player ∧ w.bookmaker = e.bookmaker ∧
        q.player = e.player ∧ q.bookmaker = e.bookmaker ∧
        e.bookmakerOdds = w.bookmakerOdds ∧
        e.eachWayValue = (w.winEdge + q.posEdge) / 2) := by
  constructor
  · intro win pos P B
    constructor
    · rintro ⟨e, he, hP, hB⟩
      rcases mem_ew_joined.mp (mem_merge_iff_mem_joined.mp he) with
        ⟨w, hw, q, hq, h₁, h₂, rfl⟩
      refine ⟨⟨w, hw, hP, hB⟩, ⟨q, hq, ?_, ?_⟩⟩
      · rw [h₁]; exact hP
      · rw [h₂]; exact hB
    · rintro ⟨⟨w, hw, hwP, hwB⟩, ⟨q, hq, hqP, hqB⟩⟩
      refine ⟨⟨w.player, w.bookmaker, w.bookmakerOdds, (w.winEdge + q.posEdge) / 2⟩,
        mem_merge_iff_mem_joined.mpr (mem_ew_joined.mpr ⟨w, hw, q, hq, ?_, ?_, rfl⟩),
        hwP, hwB⟩
      · rw [hqP, hwP]
      · rw [hqB, hwB]
  · intro win pos e he
    rcases mem_ew_joined.mp (mem_merge_iff_mem_joined.mp he) with
      ⟨w, hw, q, hq, h₁, h₂, rfl⟩
    exact ⟨w, hw, q, hq, rfl, rfl, h₁, h₂, rfl, rfl⟩

/-- C2 witness: the mean property instantiated at a one-row win input and
a one-row positional input sharing the key, whose merged output the
definitions evaluate to a single row with the mean value. -/
theorem C2_witness :
    ∃ w ∈ [(⟨"A", "BK", 12, 10, 20⟩ : WinRow)],
      ∃ q ∈ [(⟨"A", "BK", 3, 2, 50⟩ : PosRow)],
        w.player = (⟨"A", "BK", 12, (20 + 50) / 2⟩ : EwRow).player ∧
        w.bookmaker = (⟨"A", "BK", 12, (20 + 50) / 2⟩ : EwRow).bookmaker ∧
        q.player = (⟨"A", "BK", 12, (20 + 50) / 2⟩ : EwRow).player ∧
        q.bookmaker = (⟨"A", "BK", 12, (20 + 50) / 2⟩ : EwRow).bookmaker ∧
        (⟨"A", "BK", 12, (20 + 50) / 2⟩ : EwRow).bookmakerOdds = w.bookmakerOdds ∧
        (⟨"A", "BK", 12, (20 + 50) / 2⟩ : EwRow).eachWayValue =
          (w.winEdge + q.posEdge) / 2 := by
  refine C2_merge_pairs_and_mean.2 [⟨"A", "BK", 12, 10, 20⟩] [⟨"A", "BK", 3, 2, 50⟩]
    ⟨"A", "BK", 12, (20 + 50) / 2⟩ ?_
  rw [show merge_and_calculate_ew [(⟨"A", "BK", 12, 10, 20⟩ : WinRow)]
      [(⟨"A", "BK", 3, 2, 50⟩ : PosRow)] =
      [⟨"A", "BK", 12, (20 + 50) / 2⟩] from rfl]
  exact List.mem_singleton.mpr rfl

/-! Claim C8. -/

/-- C8 counterexample: two joined rows with equal Each Way Value enter the
sort with the A row first, but the output lists the B row first: pandas
sort_values with ascending False reverses an ascending argsort, so equal
keys do NOT keep their prior relative order (and with the default
quicksort kind no tie order is guaranteed at all). -/
theorem C8_counterexample :
    ew_joined [⟨"A", "BK", 2, 5, 10⟩, ⟨"B", "BK", 2, 5, 10⟩]
        [⟨"A", "BK", 2, 5, 10⟩, ⟨"B", "BK", 2, 5, 10⟩] =
      [⟨"A", "BK", 2, 10⟩, ⟨"B", "BK", 2, 10⟩] ∧
    merge_and_calculate_ew [⟨"A", "BK", 2, 5, 10⟩, ⟨"B", "BK", 2, 5, 10⟩]
        [⟨"A", "BK", 2, 5, 10⟩, ⟨"B", "BK", 2, 5, 10⟩] =
      [⟨"B", "BK", 2, 10⟩, ⟨"A", "BK", 2, 10⟩] ∧
    (⟨"A", "BK", 2, 10⟩ : EwRow).eachWayValue = (⟨"B", "BK", 2, 10⟩ : EwRow).eachWayValue ∧
    (⟨"A", "BK", 2, 10⟩ : EwRow) ≠ (⟨"B", "BK", 2, 10⟩ : EwRow) := by
  have h1 : ew_joined [⟨"A", "BK", 2, 5, 10⟩, ⟨"B", "BK", 2, 5, 10⟩]
      [⟨"A", "BK", 2, 5, 10⟩, ⟨"B", "BK", 2, 5, 10⟩] =
      [⟨"A", "BK", 2, (10 + 10 : ℚ) / 2⟩, ⟨"B", "BK", 2, (10 + 10 : ℚ) / 2⟩] := rfl
  have hle : ewLe (⟨"A", "BK", 2, (10 + 10 : ℚ) / 2⟩ : EwRow)
      ⟨"B", "BK", 2, (10 + 10 : ℚ) / 2⟩ := le_refl _
  have hsort : List.insertionSort ewLe
      [(⟨"A", "BK", 2, (10 + 10 : ℚ) / 2⟩ : EwRow), ⟨"B", "BK", 2, (10 + 10 : ℚ) / 2⟩] =
      [⟨"A", "BK", 2, (10 + 10 : ℚ) / 2⟩, ⟨"B", "BK", 2, (10 + 10 : ℚ) / 2⟩] := by
    show List.orderedInsert ewLe (⟨"A", "BK", 2, (10 + 10 : ℚ) / 2⟩ : EwRow)
      [⟨"B", "BK", 2, (10 + 10 : ℚ) / 2⟩] = _
    simp only [List.orderedInsert]
    rw [if_pos hle]
  have h2 : merge_and_calculate_ew [⟨"A", "BK", 2, 5, 10⟩, ⟨"B", "BK", 2, 5, 10⟩]
      [⟨"A", "BK", 2, 5, 10⟩, ⟨"B", "BK", 2, 5, 10⟩] =
      [⟨"B", "BK", 2, (10 + 10 : ℚ) / 2⟩, ⟨"A", "BK", 2, (10 + 10 : ℚ) / 2⟩] := by
    unfold merge_and_calculate_ew
    rw [h1, hsort]
    rfl
  refine ⟨?_, ?_, by norm_num, by decide⟩
  · rw [h1]
    norm_num
  · rw [h2]
    norm_num

/-- C8 (amended): the merged output is sorted by Each Way Value in
descending order and is a permutation of the inner join, with no
secondary sort key; rows with equal Each Way Value do NOT keep their
prior relative order (the sort reverses an ascending argsort, so at the
counterexample equal keys come out in reversed prior order, and the
default quicksort kind leaves the tie order unspecified in general). -/
theorem C8_sorted_descending :
    ∀ (win : List WinRow) (pos : List PosRow),
      List.Sorted (fun a b : EwRow => b.eachWayValue ≤ a.eachWayValue)
        (merge_and_calculate_ew win pos) ∧
      (merge_and_calculate_ew win pos).Perm (ew_joined win pos) := by
  intro win pos
  constructor
  · show List.Pairwise _ _
    unfold merge_and_calculate_ew
    rw [List.pairwise_reverse]
    exact List.sorted_insertionSort ewLe _
  · unfold merge_and_calculate_ew
    exact (List.reverse_perm _).trans (List.perm_insertionSort ewLe _)

/-! Claim C9. -/

/-- C9: when every joined row carrying a given (player, bookmaker) key
lacks a usable top_N value for its own place count, the positional output
contains no row with that key and the merged Each Way output excludes the
key as well, whatever the win market produced; and every surviving
positional row took its model odds from the top_N column of its own place
count. -/
theorem C9_missing_topN_drops_row :
    (∀ (l : List JoinedRow) (out : List PosRow) (P B : String),
      process_positional_market l = .ok out →
      (∀ r ∈ l, r.player = P → r.bookmaker = B →
        to_numeric ((lookupTop r.tops r.places).getD .none_) = none) →
      (∀ p ∈ out, ¬(p.player = P ∧ p.bookmaker = B)) ∧
      (∀ (win : List WinRow) (e : EwRow), e ∈ merge_and_calculate_ew win out →
        ¬(e.player = P ∧ e.bookmaker = B))) ∧
    (∀ (l : List JoinedRow) (out : List PosRow), process_positional_market l = .ok out →
      ∀ p ∈ out, ∃ r ∈ l, p.player = r.player ∧ p.bookmaker = r.bookmaker ∧
        to_numeric ((lookupTop r.tops r.places).getD .none_) = some p.dataGolfOdds) := by
  constructor
  · intro l out P B hout hmiss
    have hnot : ∀ p ∈ out, ¬(p.player = P ∧ p.bookmaker = B) := by
      rintro p hp ⟨hpP, hpB⟩
      rw [process_positional_market_ok hout] at hp
      rcases List.mem_filterMap.mp hp with ⟨r, hr, hpr⟩
      rcases posRowOf_eq_some hpr with ⟨b, m, hb, hm, rfl⟩
      have hnone := hmiss r hr hpP hpB
      rw [hm] at hnone
      exact Option.noConfusion hnone
    refine ⟨hnot, ?_⟩
    rintro win e he ⟨heP, heB⟩
    rcases mem_ew_joined.mp (mem_merge_iff_mem_joined.mp he) with
      ⟨w, hw, q, hq, h₁, h₂, rfl⟩
    exact hnot q hq ⟨by rw [h₁]; exact heP, by rw [h₂]; exact heB⟩
  · intro l out hout p hp
    rw [process_positional_market_ok hout] at hp
    rcases List.mem_filterMap.mp hp with ⟨r, hr, hpr⟩
    rcases posRowOf_eq_some hpr with ⟨b, m, hb, hm, rfl⟩
    exact ⟨r, hr, rfl, rfl, hm⟩

/-- C9 witness: a single joined row whose DataGolf row carries no top_5
column: the positional run succeeds with empty output and the key is
absent from every merged table. -/
theorem C9_witness :
    (∀ p ∈ ([] : List PosRow), ¬(p.player = "A" ∧ p.bookmaker = "BK")) ∧
    (∀ (win : List WinRow) (e : EwRow), e ∈ merge_and_calculate_ew win [] →
      ¬(e.player = "A" ∧ e.bookmaker = "BK")) :=
  C9_missing_topN_drops_row.1 [⟨"A", "BK", .str "10/1", 5, "1/4", "A", .str "9", []⟩] []
    "A" "BK" rfl (by decide)

/-! Claim C10. -/

/-- C10: a raw bookmaker name manually mapped to a canonical name that
does not occur in the prediction table still resolves to that canonical
name, the inner join then silently drops every row with that raw name,
and the raw name is never reported in the unresolved list. -/
theorem C10_mapping_to_absent_canonical :
    ∀ (fuzzy : String → List String → Option String)
      (m : List (String × String)) (book : List BookRow) (dg : List DgRow)
      (raw c : String),
      dict_lookup m raw = some c →
      (∀ d ∈ dg, d.player_name ≠ c) →
      (∀ choices : List String, get_match fuzzy m choices raw = some c) ∧
      (∀ jr ∈ base_comparison_df fuzzy m book dg, jr.player ≠ raw) ∧
      raw ∉ unmatched_players fuzzy m book dg := by
  intro fuzzy m book dg raw c hlk habs
  have hget : ∀ choices, get_match fuzzy m choices raw = some c := by
    intro choices
    unfold get_match
    rw [hlk]
  refine ⟨hget, ?_, ?_⟩
  · intro jr hjr hraw
    rcases List.mem_flatMap.mp hjr with ⟨b, hb, hmem⟩
    cases hgm : get_match fuzzy m (datagolf_player_list dg) b.player with
    | none =>
        rw [hgm] at hmem
        exact absurd hmem (List.not_mem_nil _)
    | some mm =>
        rw [hgm] at hmem
        rcases List.mem_map.mp hmem with ⟨d, hd, hjd⟩
        rcases List.mem_filter.mp hd with ⟨hdm, hdn⟩
        subst hjd
        have hbp : b.player = raw := hraw
        rw [hbp, hget _] at hgm
        injection hgm with hgm
        have hdc : d.player_name = c := by
          have := of_decide_eq_true hdn
          rw [this, hgm]
        exact habs d hdm hdc
  · intro hmem
    rcases List.mem_map.mp hmem with ⟨b, hb, hbraw⟩
    rcases List.mem_filter.mp hb with ⟨hbin, hnone⟩
    rw [hbraw, hget _] at hnone
    simp at hnone

/-- C10 witness: raw name X is manually mapped to Zed, which is not a
DataGolf player; resolution returns Zed for every candidate list, the
join output excludes the row, and X is not listed as unresolved. -/
theorem C10_witness :
    (∀ choices : List String,
      get_match (fun _ _ => none) [("X", "Zed")] choices "X" = some "Zed") ∧
    (∀ jr ∈ base_comparison_df (fun _ _ => none) [("X", "Zed")]
        [⟨"X", .str "10/1", "BK", 5, "1/5"⟩] [⟨"Y", .num 9, [(5, .num 2)]⟩],
      jr.player ≠ "X") ∧
    "X" ∉ unmatched_players (fun _ _ => none) [("X", "Zed")]
      [⟨"X", .str "10/1", "BK", 5, "1/5"⟩] [⟨"Y", .num 9, [(5, .num 2)]⟩] :=
  C10_mapping_to_absent_canonical (fun _ _ => none) [("X", "Zed")]
    [⟨"X", .str "10/1", "BK", 5, "1/5"⟩] [⟨"Y", .num 9, [(5, .num 2)]⟩]
    "X" "Zed" (by decide) (by decide)

end BettingApp
